import Mathlib

/-!
# Verification of the sparse-event aggregation core of `streaming_history_dash.py`

This file gives a shallow embedding of the data layer of the dashboard:
the dataframe of play events produced by `files_to_dataframe`, the
groupby-based calculation functions (`total_by_date`, `total_by_hour`,
`total_by_weekday_weekend`, `total_by_artist`, `total_by_track`), the
gap-filling tally functions (`get_date_tally`, `get_hour_tally`), the
averaging functions (`average_by_day_of_week`, `average_by_hour`), the
top-n functions (`get_top_artists`, `get_top_tracks`) and the month
filter (`filter_by_month`), together with theorems settling the stated
properties of this core.

Modelling conventions:
* A dataframe is a list of rows; a row is a structure.
* Timestamps (`endTime`) are minutes since 1970-01-01 00:00, timezone
  naive, as in the source after `pd.to_datetime`.  The derived columns
  (`date`, `year`, `month`, `dayOfWeek`, `hour`) computed in
  `files_to_dataframe` are modelled as functions of `endTime`; dates are
  days since 1970-01-01.  `dt.year`/`dt.month` are realised by the
  standard civil-from-days conversion of the proleptic Gregorian
  calendar, `dt.dayofweek` by the Monday=0 convention (1970-01-01 was a
  Thursday).
* `groupby(keys)[col].sum()/.mean().reset_index()` sorts the distinct
  group keys ascending (pandas `sort=True` default) and reduces each
  group; it is modelled by `groupTotal`/`groupMean` over `sortedKeys`,
  an insertion sort that drops duplicates.
* `sort_values(col, ascending=False)` uses pandas' default
  `kind='quicksort'`, which pandas documents as NOT stable: the relative
  order of rows with equal values is unspecified (numpy's introsort
  reorders large tie groups).  It is modelled by `sort_values_desc`, a
  stable descending insertion sort — one concrete refinement of that
  unspecified behaviour; nothing proved below depends on the tie order
  the refinement picks.  `head(n)` is modelled by `headPd` (negative `n`
  keeps all but the last `|n|` rows, as in pandas).
* `pd.merge(a, b, on=k, how='left').fillna(0)` is modelled row by row:
  every key of `a` is replaced by the matching rows of `b`, or by a
  single zero-valued row when there is no match.
* Reading the first cell of an empty frame (`head(1)[...].values[0]`)
  raises in pandas; functions that do so return an `Option` and model
  the raised error as `none`.
* Column assignments (`df['weekend'] = ...`, `df_hour['date_hour'] = ...`)
  mutate the frame they are applied to; the mutated frame is part of the
  function's result so that the side effect is visible.  The `date_hour`
  label string `"YYYY-MM-DD H"` is modelled by the pair (date, hour),
  which is equal exactly when the strings are equal.
-/

namespace SpotifyDash

/-! ## Data model: one row of the streaming-history dataframe -/

/-- One play event, as one row of the dataframe built by
`files_to_dataframe`: `artistName`, `trackName`, `endTime` (minutes
since epoch), `msPlayed`, plus the `weekend` column that
`total_by_weekday_weekend` later writes into the frame (absent, i.e.
`none`, after loading). -/
structure Row where
  artistName : String
  trackName : String
  endTime : Nat
  msPlayed : Nat
  weekend : Option Bool := none
deriving DecidableEq

/-- `df['date']`: calendar date (days since 1970-01-01) of a timestamp in
minutes since epoch. -/
def dateOf (t : Nat) : Nat := t / 1440

/-- `df['hour']`: hour of day (0–23) of a timestamp. -/
def hourOf (t : Nat) : Nat := t % 1440 / 60

/-- `dt.dayofweek` of a date in days since epoch: Monday = 0, …,
Sunday = 6; 1970-01-01 was a Thursday (= 3). -/
def dayOfWeekOfDate (d : Nat) : Nat := (d + 3) % 7

/-- `df['dayOfWeek']`: day of week of a timestamp. -/
def dayOfWeekOf (t : Nat) : Nat := dayOfWeekOfDate (dateOf t)

/-- Civil (year, month, day) of a date given in days since 1970-01-01,
proleptic Gregorian calendar (the computation behind `dt.year` and
`dt.month`). -/
def civilOfDays (d : Nat) : Nat × Nat × Nat :=
  let z := d + 719468
  let era := z / 146097
  let doe := z % 146097
  let yoe := (doe - doe / 1460 + doe / 36524 - doe / 146096) / 365
  let doy := doe - (365 * yoe + yoe / 4 - yoe / 100)
  let mp := (5 * doy + 2) / 153
  let day := doy - (153 * mp + 2) / 5 + 1
  let m := if mp < 10 then mp + 3 else mp - 9
  (yoe + era * 400 + (if m ≤ 2 then 1 else 0), m, day)

/-- `df['year']`: calendar year of a timestamp. -/
def yearOf (t : Nat) : Nat := (civilOfDays (dateOf t)).1

/-- `df['month']`: calendar month (1–12) of a timestamp. -/
def monthOf (t : Nat) : Nat := (civilOfDays (dateOf t)).2.1

/-! ## pandas primitives: sorted grouping, sorting, head -/

/-- Insert a key into an ascending duplicate-free list, keeping it
ascending and duplicate-free. -/
def insertKey {κ : Type*} [LinearOrder κ] (x : κ) : List κ → List κ
  | [] => [x]
  | y :: ys => if x < y then x :: y :: ys else if x = y then y :: ys else y :: insertKey x ys

/-- The distinct values of a list, in ascending order: the index of a
pandas `groupby` (whose `sort=True` default sorts the group keys). -/
def sortedKeys {κ : Type*} [LinearOrder κ] (l : List κ) : List κ := l.foldr insertKey []

/-- Sum of `val` over the rows of `df` whose `key` equals `k`: one
group's `['msPlayed'].sum()`. -/
def msSumBy {β κ : Type*} [DecidableEq κ] (key : β → κ) (val : β → Nat) (df : List β)
    (k : κ) : Nat :=
  ((df.filter fun r => decide (key r = k)).map val).sum

/-- `df.groupby(key)[val].sum().reset_index()`: one row per distinct
key, keys ascending, value = sum over the group. -/
def groupTotal {β κ : Type*} [LinearOrder κ] (key : β → κ) (val : β → Nat) (df : List β) :
    List (κ × Nat) :=
  (sortedKeys (df.map key)).map fun k => (k, msSumBy key val df k)

/-- `df.groupby(key)[val].mean().reset_index()`: one row per distinct
key, keys ascending, value = arithmetic mean over the group. -/
def groupMean {β κ : Type*} [LinearOrder κ] (key : β → κ) (val : β → Nat) (df : List β) :
    List (κ × ℚ) :=
  (sortedKeys (df.map key)).map fun k =>
    let g := df.filter fun r => decide (key r = k)
    (k, ((g.map val).sum : ℚ) / (g.length : ℚ))

/-- Insertion of a row into a list sorted descending by `val`: the row
goes in front of the first element whose value is not larger. -/
def insertDescBy {β : Type*} (val : β → Nat) (x : β) : List β → List β
  | [] => [x]
  | y :: ys => if val y ≤ val x then x :: y :: ys else y :: insertDescBy val x ys

/-- `df.sort_values(col, ascending=False)`.  The source uses pandas'
default `kind='quicksort'`, whose order among rows with EQUAL values is
unspecified (pandas guarantees stability only for `mergesort`/`stable`);
this embedding fixes one concrete refinement — a stable descending
insertion sort — and no theorem below relies on the tie order it picks,
only on properties that hold under every permutation of ties. -/
def sort_values_desc {β : Type*} (val : β → Nat) (l : List β) : List β :=
  l.foldr (insertDescBy val) []

/-- `df.head(n)`: the first `n` rows for `n ≥ 0`, and all rows but the
last `|n|` for negative `n` (pandas semantics). -/
def headPd {β : Type*} (n : Int) (l : List β) : List β :=
  if 0 ≤ n then l.take n.toNat else l.take (l.length - (-n).toNat)

/-! ## Calculation functions (lines 52–129 of the source) -/

/-- `total_by_date` (line 58): group by `date`, total `msPlayed`. -/
def total_by_date (df : List Row) : List (Nat × Nat) :=
  groupTotal (fun r => dateOf r.endTime) (fun r => r.msPlayed) df

/-- `total_by_weekday_weekend` (lines 62–64): writes the derived boolean
column `weekend = dayOfWeek > 4` into the input frame (a visible
mutation), then groups by it.  The result is the pair (mutated input
frame, grouped totals). -/
def total_by_weekday_weekend (df : List Row) : List Row × List (Bool × Nat) :=
  let df2 := df.map fun r => { r with weekend := some (decide (4 < dayOfWeekOf r.endTime)) }
  (df2, groupTotal (fun r => r.weekend.getD false) (fun r => r.msPlayed) df2)

/-- One row of the per-(date, hour) frame produced by `total_by_hour`:
columns `date`, `hour`, `msPlayed`, plus the `date_hour` label column
that `get_hour_tally` later writes into it (absent, `none`, at first). -/
structure HRow where
  date : Nat
  hour : Nat
  msPlayed : Nat
  date_hour : Option (Nat × Nat) := none
deriving DecidableEq

/-- The (date, hour) grouping key of an event, ordered lexicographically
as pandas orders the composite `groupby(['date', 'hour'])` key. -/
def hourKey (r : Row) : Lex (Nat × Nat) := toLex (dateOf r.endTime, hourOf r.endTime)

/-- `total_by_hour` (line 67): group by `['date', 'hour']`, total
`msPlayed`. -/
def total_by_hour (df : List Row) : List HRow :=
  (sortedKeys (df.map hourKey)).map fun k =>
    { date := (ofLex k).1, hour := (ofLex k).2
      msPlayed := msSumBy hourKey (fun r => r.msPlayed) df k }

/-- `get_date_tally` (lines 71–79): read the first and last `date` cell
(raises on an empty frame, modelled `none`), build the daily range
between them, and left-merge the input onto it with zero fill. -/
def get_date_tally (df_date : List (Nat × Nat)) : Option (List (Nat × Nat)) :=
  match df_date.head?, df_date.getLast? with
  | some first_row, some last_row =>
      let first_day := first_row.1
      let last_day := last_row.1
      let dates := List.range' first_day (last_day + 1 - first_day)
      some (dates.flatMap fun d =>
        match df_date.filter fun p => decide (p.1 = d) with
        | [] => [(d, 0)]
        | found => found.map fun p => (d, p.2))
  | _, _ => none

/-- `get_hour_tally` (lines 83–100), faithfully including its defects:
the end of the hourly range reuses the FIRST row's hour (line 86 calls
`head()` instead of `tail()`), and the `date_hour` labels of the range
frame are assigned from the labels of the input frame by row-index
alignment (line 96 builds them from `df_hour`, not from `hours`), with
rows of the range beyond the input's length getting a missing label.
The function also writes the `date_hour` column into its input frame
(line 95); the result is `none` on an empty frame (line 85 raises),
otherwise the pair (mutated input frame, merged tally). -/
def get_hour_tally (df_hour : List HRow) : Option (List HRow × List HRow) :=
  match df_hour.head?, df_hour.getLast? with
  | some hd, some tl =>
      let start_dt := hd.date * 24 + hd.hour
      let end_dt := tl.date * 24 + hd.hour
      let hoursIdx := List.range' start_dt (end_dt + 1 - start_dt)
      let df_hour2 := df_hour.map fun r => { r with date_hour := some (r.date, r.hour) }
      let hoursRows := hoursIdx.enum.map fun it =>
        (it.2 / 24, it.2 % 24, (df_hour2[it.1]?).map fun r => ((r.date, r.hour) : Nat × Nat))
      let merged := hoursRows.flatMap fun row =>
        match row.2.2 with
        | none => [({ date := row.1, hour := row.2.1, msPlayed := 0 } : HRow)]
        | some s =>
          match df_hour2.filter fun r => decide (r.date_hour = some s) with
          | [] => [({ date := row.1, hour := row.2.1, msPlayed := 0 } : HRow)]
          | found => found.map fun r => { date := row.1, hour := row.2.1, msPlayed := r.msPlayed }
      some (df_hour2, merged)
  | _, _ => none

/-- `average_by_day_of_week` (lines 103–108): day tally of the date
totals, then mean of `msPlayed` grouped by the tally dates' day of week
(`dayName` is a function of `dayOfWeek`, so the composite key is the
day-of-week ordinal). -/
def average_by_day_of_week (df : List Row) : Option (List (Nat × ℚ)) :=
  (get_date_tally (total_by_date df)).map fun date_tally =>
    groupMean (fun p => dayOfWeekOfDate p.1) (fun p => p.2) date_tally

/-- `average_by_hour` (lines 111–114): hour tally of the (date, hour)
totals, then mean of `msPlayed` grouped by `hour`. -/
def average_by_hour (df : List Row) : Option (List (Nat × ℚ)) :=
  (get_hour_tally (total_by_hour df)).map fun res =>
    groupMean (fun r => r.hour) (fun r => r.msPlayed) res.2

/-- `total_by_artist` (line 117): group by `artistName`, total
`msPlayed`. -/
def total_by_artist (df : List Row) : List (String × Nat) :=
  groupTotal (fun r => r.artistName) (fun r => r.msPlayed) df

/-- `get_top_artists` (line 120): artist totals, sorted descending by
`msPlayed`, first `n` rows. -/
def get_top_artists (df : List Row) (n : Int) : List (String × Nat) :=
  headPd n (sort_values_desc (fun p => p.2) (total_by_artist df))

/-- The composite `(artistName, trackName)` grouping key, ordered
lexicographically. -/
def trackKey (r : Row) : Lex (String × String) := toLex (r.artistName, r.trackName)

/-- `total_by_track` (line 124): group by `['artistName', 'trackName']`,
total `msPlayed`. -/
def total_by_track (df : List Row) : List (Lex (String × String) × Nat) :=
  groupTotal trackKey (fun r => r.msPlayed) df

/-- `get_top_tracks` (line 128): track totals, sorted descending by
`msPlayed`, first `n` rows. -/
def get_top_tracks (df : List Row) (n : Int) : List (Lex (String × String) × Nat) :=
  headPd n (sort_values_desc (fun p => p.2) (total_by_track df))

/-- `filter_by_month` (line 133): keep the rows whose derived `year` and
`month` columns equal the arguments. -/
def filter_by_month (df : List Row) (year month : Nat) : List Row :=
  df.filter fun r => decide (yearOf r.endTime = year) && decide (monthOf r.endTime = month)

/-- Erase the `weekend` column of a row (to compare frames modulo the
column written by `total_by_weekday_weekend`). -/
def dropWeekendCol (r : Row) : Row := { r with weekend := none }

/-- Erase the `date_hour` column of a per-hour row (to compare frames
modulo the column written by `get_hour_tally`). -/
def dropDateHourCol (r : HRow) : HRow := { r with date_hour := none }

/-! ## Concrete event stores used to instantiate the theorems

Day 19723 since epoch is 2024-01-01 (a Monday); minute timestamps are
`day * 1440 + hour * 60 + minute`. -/

/-- Spec §8 example: events on 2024-01-01 10:00 (60000 ms) and
2024-01-03 10:00 (30000 ms). -/
def storeC1 : List Row :=
  [{ artistName := "A", trackName := "x", endTime := 19723 * 1440 + 600, msPlayed := 60000 },
   { artistName := "A", trackName := "x", endTime := 19725 * 1440 + 600, msPlayed := 30000 }]

/-- Events on 2024-01-01 at 14:30 (60000 ms) and 16:30 (30000 ms) only. -/
def storeC2 : List Row :=
  [{ artistName := "A", trackName := "x", endTime := 19723 * 1440 + 14 * 60 + 30, msPlayed := 60000 },
   { artistName := "A", trackName := "y", endTime := 19723 * 1440 + 16 * 60 + 30, msPlayed := 30000 }]

/-- Events on 2024-01-01 at 14:00 (45000 ms) and 16:00 (15000 ms) only:
the hour-range example of the specification. -/
def storeC3 : List Row :=
  [{ artistName := "B", trackName := "u", endTime := 19723 * 1440 + 14 * 60, msPlayed := 45000 },
   { artistName := "B", trackName := "v", endTime := 19723 * 1440 + 16 * 60, msPlayed := 15000 }]

/-- Three events over a four-day span with a gap. -/
def storeC4 : List Row :=
  [{ artistName := "A", trackName := "x", endTime := 19723 * 1440 + 100, msPlayed := 1000 },
   { artistName := "B", trackName := "y", endTime := 19723 * 1440 + 200, msPlayed := 2000 },
   { artistName := "A", trackName := "z", endTime := 19726 * 1440 + 50, msPlayed := 500 }]

/-- A one-event store (January 2024). -/
def storeC7 : List Row :=
  [{ artistName := "A", trackName := "x", endTime := 19723 * 1440 + 870, msPlayed := 60000 }]

/-- A one-event store whose `weekend` column is absent (as after
loading). -/
def storeC8 : List Row :=
  [{ artistName := "D", trackName := "w", endTime := 19724 * 1440 + 500, msPlayed := 7000 }]

/-- Events out of hour order across two days. -/
def storeC9 : List Row :=
  [{ artistName := "A", trackName := "x", endTime := 19724 * 1440 + 16 * 60, msPlayed := 100 },
   { artistName := "B", trackName := "y", endTime := 19723 * 1440 + 9 * 60, msPlayed := 200 },
   { artistName := "A", trackName := "z", endTime := 19724 * 1440 + 8 * 60, msPlayed := 300 }]

/-- One event in January 2024 and one in February 2024. -/
def storeC10 : List Row :=
  [{ artistName := "A", trackName := "x", endTime := 19723 * 1440 + 100, msPlayed := 1000 },
   { artistName := "B", trackName := "y", endTime := 19754 * 1440 + 100, msPlayed := 2000 }]

/-! ## Ordering facts about `sortedKeys` (the pandas groupby index) -/

theorem mem_insertKey {κ : Type*} [LinearOrder κ] (x a : κ) (l : List κ) :
    a ∈ insertKey x l ↔ a = x ∨ a ∈ l := by
  induction l with
  | nil => simp [insertKey]
  | cons y ys ih =>
      rw [insertKey]
      rcases lt_trichotomy x y with hlt | heq | hgt
      · simp [hlt]
      · subst heq
        rw [if_neg (lt_irrefl x), if_pos rfl]
        simp only [List.mem_cons]
        tauto
      · rw [if_neg (by exact not_lt_of_gt hgt), if_neg (by exact fun h => absurd h (ne_of_gt hgt))]
        simp only [List.mem_cons, ih]
        tauto

theorem pairwise_insertKey {κ : Type*} [LinearOrder κ] (x : κ) (l : List κ)
    (h : l.Pairwise (· < ·)) : (insertKey x l).Pairwise (· < ·) := by
  induction l with
  | nil => simp [insertKey]
  | cons y ys ih =>
      rw [List.pairwise_cons] at h
      obtain ⟨hy, hys⟩ := h
      rw [insertKey]
      rcases lt_trichotomy x y with hlt | heq | hgt
      · rw [if_pos hlt]
        exact List.pairwise_cons.mpr ⟨by
            intro z hz
            rcases List.mem_cons.mp hz with rfl | hz
            · exact hlt
            · exact lt_trans hlt (hy z hz),
          List.pairwise_cons.mpr ⟨hy, hys⟩⟩
      · subst heq
        rw [if_neg (lt_irrefl x), if_pos rfl]
        exact List.pairwise_cons.mpr ⟨hy, hys⟩
      · rw [if_neg (by exact not_lt_of_gt hgt), if_neg (by exact fun h => absurd h (ne_of_gt hgt))]
        refine List.pairwise_cons.mpr ⟨?_, ih hys⟩
        intro z hz
        rcases (mem_insertKey x z ys).mp hz with rfl | hz
        · exact hgt
        · exact hy z hz

theorem sortedKeys_cons {κ : Type*} [LinearOrder κ] (a : κ) (l : List κ) :
    sortedKeys (a :: l) = insertKey a (sortedKeys l) := rfl

theorem mem_sortedKeys {κ : Type*} [LinearOrder κ] (a : κ) (l : List κ) :
    a ∈ sortedKeys l ↔ a ∈ l := by
  induction l with
  | nil => simp [sortedKeys]
  | cons y ys ih => rw [sortedKeys_cons, mem_insertKey]; simp [ih]

theorem pairwise_sortedKeys {κ : Type*} [LinearOrder κ] (l : List κ) :
    (sortedKeys l).Pairwise (· < ·) := by
  induction l with
  | nil => simp [sortedKeys]
  | cons y ys ih => exact pairwise_insertKey y (sortedKeys ys) ih

theorem sortedKeys_ne_nil {κ : Type*} [LinearOrder κ] (l : List κ) (h : l ≠ []) :
    sortedKeys l ≠ [] := by
  match l, h with
  | a :: t, _ =>
      intro hc
      have : a ∈ sortedKeys (a :: t) := (mem_sortedKeys a (a :: t)).mpr (List.mem_cons_self a t)
      rw [hc] at this
      exact absurd this (List.not_mem_nil a)

theorem head_le_of_pairwise {κ : Type*} [LinearOrder κ] {l : List κ} {x : κ}
    (h : l.Pairwise (· < ·)) (hx : l.head? = some x) : ∀ a ∈ l, x ≤ a := by
  match l, hx with
  | y :: t, hx =>
      have hxy : x = y := by simpa using hx.symm
      subst hxy
      intro a ha
      rcases List.mem_cons.mp ha with rfl | ha
      · exact le_refl a
      · exact le_of_lt ((List.pairwise_cons.mp h).1 a ha)

theorem le_getLast_of_pairwise {κ : Type*} [LinearOrder κ] {l : List κ} {x : κ}
    (h : l.Pairwise (· < ·)) (hx : l.getLast? = some x) : ∀ a ∈ l, a ≤ x := by
  induction l with
  | nil => intro a ha; exact absurd ha (List.not_mem_nil a)
  | cons y t ih =>
      match t with
      | [] =>
          have hxy : x = y := by simpa [List.getLast?] using hx.symm
          subst hxy
          intro a ha
          rcases List.mem_cons.mp ha with rfl | ha
          · exact le_refl a
          · exact absurd ha (List.not_mem_nil a)
      | z :: t' =>
          rw [List.getLast?_cons_cons] at hx
          have htail := (List.pairwise_cons.mp h).2
          have hyall := (List.pairwise_cons.mp h).1
          intro a ha
          rcases List.mem_cons.mp ha with rfl | ha
          · have hxm : x ∈ z :: t' :=
              List.mem_of_mem_getLast? (by rw [hx]; exact rfl)
            exact le_of_lt (lt_of_lt_of_le (hyall x hxm) (le_refl x))
          · exact ih htail hx a ha

/-! ## Structure of `groupTotal` (sparse per-key aggregates) -/

theorem groupTotal_map_fst {β κ : Type*} [LinearOrder κ] (key : β → κ) (val : β → Nat)
    (df : List β) : (groupTotal key val df).map Prod.fst = sortedKeys (df.map key) := by
  simp [groupTotal, List.map_map, Function.comp_def]

theorem pairwise_fst_groupTotal {β κ : Type*} [LinearOrder κ] (key : β → κ) (val : β → Nat)
    (df : List β) : (groupTotal key val df).Pairwise fun p q => p.1 < q.1 := by
  apply List.pairwise_map.mp
  rw [groupTotal_map_fst]
  exact pairwise_sortedKeys _

theorem mem_fst_groupTotal {β κ : Type*} [LinearOrder κ] (key : β → κ) (val : β → Nat)
    (df : List β) (k : κ) :
    k ∈ (groupTotal key val df).map Prod.fst ↔ k ∈ df.map key := by
  rw [groupTotal_map_fst]
  exact mem_sortedKeys _ _

theorem snd_of_mem_groupTotal {β κ : Type*} [LinearOrder κ] (key : β → κ) (val : β → Nat)
    (df : List β) (p : κ × Nat) (hp : p ∈ groupTotal key val df) :
    p.2 = msSumBy key val df p.1 := by
  obtain ⟨k, _, rfl⟩ := List.mem_map.mp hp
  rfl

/-- In a duplicate-free key list, filtering for one key yields that key
once if present and nothing otherwise. -/
theorem filter_eq_key_of_nodup {κ : Type*} [DecidableEq κ] (keys : List κ) (h : keys.Nodup)
    (d : κ) : keys.filter (fun k => decide (k = d)) = if d ∈ keys then [d] else [] := by
  induction keys with
  | nil => simp
  | cons y ys ih =>
      rw [List.nodup_cons] at h
      obtain ⟨hy, hys⟩ := h
      by_cases hyd : y = d
      · subst hyd
        rw [List.filter_cons_of_pos (by simp), if_pos (List.mem_cons_self y ys)]
        rw [List.filter_eq_nil_iff.mpr (by intro a ha; simp; intro had; subst had; exact hy ha)]
      · rw [List.filter_cons_of_neg (by simpa using hyd), ih hys]
        by_cases hd : d ∈ ys
        · rw [if_pos hd, if_pos (List.mem_cons_of_mem y hd)]
        · rw [if_neg hd, if_neg (by simp [hd]; intro h; exact hyd h.symm)]

/-- Filtering a keyed table built over `keys` for one key. -/
theorem filter_groupRows {κ : Type*} [DecidableEq κ] (keys : List κ) (v : κ → Nat) (d : κ) :
    (keys.map fun k => (k, v k)).filter (fun p => decide (p.1 = d))
      = (keys.filter fun k => decide (k = d)).map fun k => (k, v k) :=
  List.filter_map (fun k => (k, v k)) keys

/-- A `flatMap` whose blocks are all singletons is a `map`. -/
theorem flatMap_eq_map_of_singleton {α β : Type*} (l : List α) (f : α → List β) (g : α → β)
    (h : ∀ a ∈ l, f a = [g a]) : l.flatMap f = l.map g := by
  induction l with
  | nil => rfl
  | cons a t ih => simp_all [List.flatMap_cons]

/-- `msSumBy` on a cons row. -/
theorem msSumBy_cons {β κ : Type*} [DecidableEq κ] (key : β → κ) (val : β → Nat) (r : β)
    (df : List β) (k : κ) :
    msSumBy key val (r :: df) k
      = (if key r = k then val r else 0) + msSumBy key val df k := by
  unfold msSumBy
  by_cases h : key r = k
  · rw [List.filter_cons_of_pos (by simpa using h), if_pos h]
    simp
  · rw [List.filter_cons_of_neg (by simpa using h), if_neg h]
    simp

/-- Summing an indicator over a duplicate-free list containing the key. -/
theorem sum_map_ite_eq {κ : Type*} [DecidableEq κ] (R : List κ) (hN : R.Nodup) (x : κ)
    (c : Nat) (hx : x ∈ R) : (R.map fun k => if x = k then c else 0).sum = c := by
  induction R with
  | nil => exact absurd hx (List.not_mem_nil x)
  | cons y ys ih =>
      rw [List.nodup_cons] at hN
      obtain ⟨hy, hys⟩ := hN
      rw [List.map_cons, List.sum_cons]
      by_cases hxy : x = y
      · subst hxy
        rw [if_pos rfl]
        have : (ys.map fun k => if x = k then c else 0).sum = 0 := by
          apply List.sum_eq_zero
          intro a ha
          obtain ⟨k, hk, rfl⟩ := List.mem_map.mp ha
          rw [if_neg (by intro h; subst h; exact hy hk)]
        omega
      · rw [if_neg hxy, ih hys (by rcases List.mem_cons.mp hx with h | h; exact absurd h hxy; exact h)]
        omega

/-- C4's engine: summing the per-key totals over any duplicate-free key
list covering all rows gives the total over the rows. -/
theorem sum_msSumBy_partition {β κ : Type*} [DecidableEq κ] (key : β → κ) (val : β → Nat)
    (df : List β) (R : List κ) (hN : R.Nodup) (hcov : ∀ r ∈ df, key r ∈ R) :
    (R.map (msSumBy key val df)).sum = (df.map val).sum := by
  induction df with
  | nil =>
      simp only [List.map_nil, List.sum_nil]
      apply List.sum_eq_zero
      intro a ha
      obtain ⟨k, _, rfl⟩ := List.mem_map.mp ha
      rfl
  | cons r rest ih =>
      have hcov' : ∀ s ∈ rest, key s ∈ R := fun s hs => hcov s (List.mem_cons_of_mem r hs)
      have h1 : (R.map (msSumBy key val (r :: rest))).sum
          = (R.map fun k => if key r = k then val r else 0).sum
            + (R.map (msSumBy key val rest)).sum := by
        rw [← List.sum_map_add]
        apply congrArg
        apply List.map_congr_left
        intro k _
        exact msSumBy_cons key val r rest k
      rw [h1, sum_map_ite_eq R hN (key r) (val r) (hcov r (List.mem_cons_self r rest)),
        ih hcov', List.map_cons, List.sum_cons]

/-! ## The day-granularity gap filler -/

/-- Complete description of `get_date_tally ∘ total_by_date` on a
non-empty store: the result is the dense daily range from the minimum to
the maximum observed date, each day carrying the observed per-day sum
(which is 0 for days with no events). -/
theorem get_date_tally_total_by_date (df : List Row) (h : df ≠ []) :
    ∃ minD maxD,
      (minD ∈ df.map fun r => dateOf r.endTime) ∧
      (∀ d ∈ df.map fun r => dateOf r.endTime, minD ≤ d) ∧
      (maxD ∈ df.map fun r => dateOf r.endTime) ∧
      (∀ d ∈ df.map fun r => dateOf r.endTime, d ≤ maxD) ∧
      get_date_tally (total_by_date df)
        = some ((List.range' minD (maxD + 1 - minD)).map fun d =>
            (d, msSumBy (fun r => dateOf r.endTime) (fun r => r.msPlayed) df d)) := by
  have hmapne : df.map (fun r => dateOf r.endTime) ≠ [] := by
    intro hc
    exact h (List.map_eq_nil_iff.mp hc)
  have hkne : sortedKeys (df.map fun r => dateOf r.endTime) ≠ [] :=
    sortedKeys_ne_nil _ hmapne
  obtain ⟨k0, hk0⟩ : ∃ k0, (sortedKeys (df.map fun r => dateOf r.endTime)).head? = some k0 :=
    ⟨_, List.head?_eq_head hkne⟩
  obtain ⟨k1, hk1⟩ : ∃ k1, (sortedKeys (df.map fun r => dateOf r.endTime)).getLast? = some k1 :=
    ⟨_, List.getLast?_eq_getLast _ hkne⟩
  have hk0mem : k0 ∈ sortedKeys (df.map fun r => dateOf r.endTime) :=
    List.mem_of_mem_head? (by rw [hk0]; exact rfl)
  have hk1mem : k1 ∈ sortedKeys (df.map fun r => dateOf r.endTime) :=
    List.mem_of_mem_getLast? (by rw [hk1]; exact rfl)
  have hnodup : (sortedKeys (df.map fun r => dateOf r.endTime)).Nodup :=
    (pairwise_sortedKeys _).imp ne_of_lt
  have htd : total_by_date df
      = (sortedKeys (df.map fun r => dateOf r.endTime)).map fun k =>
          (k, msSumBy (fun r => dateOf r.endTime) (fun r => r.msPlayed) df k) := rfl
  refine ⟨k0, k1, (mem_sortedKeys _ _).mp hk0mem, ?_, (mem_sortedKeys _ _).mp hk1mem, ?_, ?_⟩
  · intro d hd
    exact head_le_of_pairwise (pairwise_sortedKeys _) hk0 d ((mem_sortedKeys _ _).mpr hd)
  · intro d hd
    exact le_getLast_of_pairwise (pairwise_sortedKeys _) hk1 d ((mem_sortedKeys _ _).mpr hd)
  · have hhead : (total_by_date df).head?
        = some (k0, msSumBy (fun r => dateOf r.endTime) (fun r => r.msPlayed) df k0) := by
      rw [htd, List.head?_map, hk0]
      rfl
    have hlast : (total_by_date df).getLast?
        = some (k1, msSumBy (fun r => dateOf r.endTime) (fun r => r.msPlayed) df k1) := by
      rw [htd, List.getLast?_map, hk1]
      rfl
    unfold get_date_tally
    rw [hhead, hlast]
    dsimp only
    apply congrArg
    apply flatMap_eq_map_of_singleton
    intro d _
    have hfil : (total_by_date df).filter (fun p => decide (p.1 = d))
        = ((sortedKeys (df.map fun r => dateOf r.endTime)).filter fun k => decide (k = d)).map
            fun k => (k, msSumBy (fun r => dateOf r.endTime) (fun r => r.msPlayed) df k) := by
      rw [htd]
      exact filter_groupRows _ _ d
    rw [hfil, filter_eq_key_of_nodup _ hnodup d]
    by_cases hd : d ∈ sortedKeys (df.map fun r => dateOf r.endTime)
    · rw [if_pos hd]
      rfl
    · rw [if_neg hd]
      have hzero : msSumBy (fun r => dateOf r.endTime) (fun r => r.msPlayed) df d = 0 := by
        unfold msSumBy
        rw [List.filter_eq_nil_iff.mpr ?_]
        · rfl
        · intro r hr
          simp only [decide_eq_true_eq]
          intro hk
          exact hd ((mem_sortedKeys _ _).mpr (hk ▸ List.mem_map_of_mem (fun r => dateOf r.endTime) hr))
      rw [hzero]
      rfl

/-- C1: for every non-empty collection of play events, the gap-filled
day-bucket sequence produced by `total_by_date` followed by
`get_date_tally` has exactly `maxDate - minDate + 1` entries, its date
column is exactly the dense ascending range from the minimum to the
maximum observed date (hence strictly increasing by one day with no
duplicate and no missing date), and each entry's total is the sum of
`msPlayed` over the events of that date — 0 for dates with no events. -/
theorem date_tally_is_dense_calendar (df : List Row) (h : df ≠ []) :
    ∃ l minD maxD,
      get_date_tally (total_by_date df) = some l ∧
      (minD ∈ df.map fun r => dateOf r.endTime) ∧
      (∀ d ∈ df.map fun r => dateOf r.endTime, minD ≤ d) ∧
      (maxD ∈ df.map fun r => dateOf r.endTime) ∧
      (∀ d ∈ df.map fun r => dateOf r.endTime, d ≤ maxD) ∧
      l.length = maxD - minD + 1 ∧
      l.map Prod.fst = List.range' minD (maxD - minD + 1) ∧
      ∀ p ∈ l, p.2 = ((df.filter fun r => decide (dateOf r.endTime = p.1)).map
        fun r => r.msPlayed).sum := by
  obtain ⟨minD, maxD, hmem, hmin, hmemx, hmax, heq⟩ := get_date_tally_total_by_date df h
  have hle : minD ≤ maxD := hmin maxD hmemx
  have hlen : maxD + 1 - minD = maxD - minD + 1 := by omega
  refine ⟨_, minD, maxD, heq, hmem, hmin, hmemx, hmax, ?_, ?_, ?_⟩
  · rw [List.length_map, List.length_range', hlen]
  · rw [List.map_map, hlen]
    exact List.map_id' _
  · intro p hp
    obtain ⟨d, _, rfl⟩ := List.mem_map.mp hp
    rfl

/-- Closed instance of C1 at the specification's own example store. -/
theorem date_tally_is_dense_calendar_witness :
    storeC1 ≠ [] ∧
    ∃ l minD maxD,
      get_date_tally (total_by_date storeC1) = some l ∧
      (minD ∈ storeC1.map fun r => dateOf r.endTime) ∧
      (∀ d ∈ storeC1.map fun r => dateOf r.endTime, minD ≤ d) ∧
      (maxD ∈ storeC1.map fun r => dateOf r.endTime) ∧
      (∀ d ∈ storeC1.map fun r => dateOf r.endTime, d ≤ maxD) ∧
      l.length = maxD - minD + 1 ∧
      l.map Prod.fst = List.range' minD (maxD - minD + 1) ∧
      ∀ p ∈ l, p.2 = ((storeC1.filter fun r => decide (dateOf r.endTime = p.1)).map
        fun r => r.msPlayed).sum :=
  ⟨by decide, date_tally_is_dense_calendar storeC1 (by decide)⟩

/-- C4: densification preserves total mass — the bucket totals of the
gap-filled day tally sum to the total `msPlayed` of the original
events. -/
theorem date_tally_preserves_total_mass (df : List Row) (h : df ≠ []) :
    ∃ l, get_date_tally (total_by_date df) = some l ∧
      (l.map Prod.snd).sum = (df.map fun r => r.msPlayed).sum := by
  obtain ⟨minD, maxD, hmem, hmin, hmemx, hmax, heq⟩ := get_date_tally_total_by_date df h
  have hle : minD ≤ maxD := hmin maxD hmemx
  refine ⟨_, heq, ?_⟩
  rw [List.map_map]
  have hcomp : (Prod.snd ∘ fun d =>
      (d, msSumBy (fun r => dateOf r.endTime) (fun r => r.msPlayed) df d))
      = msSumBy (fun r => dateOf r.endTime) (fun r => r.msPlayed) df := rfl
  rw [hcomp]
  apply sum_msSumBy_partition
  · exact List.nodup_range' _ _
  · intro r hr
    rw [List.mem_range'_1]
    constructor
    · exact hmin _ (List.mem_map_of_mem _ hr)
    · have := hmax _ (List.mem_map_of_mem (fun r => dateOf r.endTime) hr)
      omega

/-- Closed instance of C4 at a concrete store with a gap day. -/
theorem date_tally_preserves_total_mass_witness :
    storeC4 ≠ [] ∧
    ∃ l, get_date_tally (total_by_date storeC4) = some l ∧
      (l.map Prod.snd).sum = (storeC4.map fun r => r.msPlayed).sum :=
  ⟨by decide, date_tally_preserves_total_mass storeC4 (by decide)⟩

/-! ## Sorted structure of the sparse aggregates (C9) -/

/-- In a list whose key column is strictly ascending, the first row
carries the minimum key and the last row the maximum. -/
theorem head_min_getLast_max {β κ : Type*} [LinearOrder κ] (t : List β) (key : β → κ)
    (hpair : (t.map key).Pairwise (· < ·)) (hne : t ≠ []) :
    (∃ hd, t.head? = some hd ∧ ∀ s ∈ t, key hd ≤ key s) ∧
    (∃ tl, t.getLast? = some tl ∧ ∀ s ∈ t, key s ≤ key tl) := by
  obtain ⟨hd, hhd⟩ : ∃ hd, t.head? = some hd := ⟨_, List.head?_eq_head hne⟩
  obtain ⟨tl, htl⟩ : ∃ tl, t.getLast? = some tl := ⟨_, List.getLast?_eq_getLast _ hne⟩
  have hmhd : (t.map key).head? = some (key hd) := by rw [List.head?_map, hhd]; rfl
  have hmtl : (t.map key).getLast? = some (key tl) := by rw [List.getLast?_map, htl]; rfl
  exact ⟨⟨hd, hhd, fun s hs => head_le_of_pairwise hpair hmhd _ (List.mem_map_of_mem key hs)⟩,
         ⟨tl, htl, fun s hs => le_getLast_of_pairwise hpair hmtl _ (List.mem_map_of_mem key hs)⟩⟩

theorem total_by_hour_map_key (df : List Row) :
    (total_by_hour df).map (fun r => toLex (r.date, r.hour)) = sortedKeys (df.map hourKey) := by
  rw [total_by_hour, List.map_map]
  exact List.map_id' _

theorem total_by_date_ne_nil (df : List Row) (h : df ≠ []) : total_by_date df ≠ [] := by
  intro hc
  have h1 : sortedKeys (df.map fun r => dateOf r.endTime) ≠ [] :=
    sortedKeys_ne_nil _ (fun hm => h (List.map_eq_nil_iff.mp hm))
  exact h1 (List.map_eq_nil_iff.mp hc)

theorem total_by_hour_ne_nil (df : List Row) (h : df ≠ []) : total_by_hour df ≠ [] := by
  intro hc
  have h1 : sortedKeys (df.map hourKey) ≠ [] :=
    sortedKeys_ne_nil _ (fun hm => h (List.map_eq_nil_iff.mp hm))
  exact h1 (List.map_eq_nil_iff.mp hc)

/-- C9: for a non-empty store, `total_by_date` is strictly ascending in
its date key with one row per distinct observed date, and
`total_by_hour` is strictly ascending in the lexicographic
(date, hour) key with one row per distinct observed pair; hence the
first row of each carries the minimum observed key and the last row the
maximum, justifying the gap fillers' use of `head`/`tail` as range
boundaries. -/
theorem sparse_aggregates_sorted_and_bounded (df : List Row) (h : df ≠ []) :
    ((total_by_date df).Pairwise fun p q => p.1 < q.1) ∧
    (∀ d, (d ∈ (total_by_date df).map Prod.fst) ↔ d ∈ df.map fun r => dateOf r.endTime) ∧
    (∃ hd, (total_by_date df).head? = some hd ∧ ∀ p ∈ total_by_date df, hd.1 ≤ p.1) ∧
    (∃ tl, (total_by_date df).getLast? = some tl ∧ ∀ p ∈ total_by_date df, p.1 ≤ tl.1) ∧
    ((total_by_hour df).Pairwise fun r s => toLex (r.date, r.hour) < toLex (s.date, s.hour)) ∧
    (∀ k, (k ∈ (total_by_hour df).map fun r => toLex (r.date, r.hour)) ↔ k ∈ df.map hourKey) ∧
    (∃ hd, (total_by_hour df).head? = some hd ∧
      ∀ s ∈ total_by_hour df, toLex (hd.date, hd.hour) ≤ toLex (s.date, s.hour)) ∧
    (∃ tl, (total_by_hour df).getLast? = some tl ∧
      ∀ s ∈ total_by_hour df, toLex (s.date, s.hour) ≤ toLex (tl.date, tl.hour)) := by
  have hdpair : ((total_by_date df).map Prod.fst).Pairwise ((· < ·) : Nat → Nat → Prop) := by
    rw [total_by_date, groupTotal_map_fst]
    exact pairwise_sortedKeys _
  have hhpair : ((total_by_hour df).map fun r => toLex (r.date, r.hour)).Pairwise
      ((· < ·) : Lex (Nat × Nat) → Lex (Nat × Nat) → Prop) := by
    rw [total_by_hour_map_key]
    exact pairwise_sortedKeys _
  obtain ⟨hdmin, hdmax⟩ :=
    head_min_getLast_max (total_by_date df) Prod.fst hdpair (total_by_date_ne_nil df h)
  obtain ⟨hhmin, hhmax⟩ :=
    head_min_getLast_max (total_by_hour df) (fun r => toLex (r.date, r.hour)) hhpair
      (total_by_hour_ne_nil df h)
  refine ⟨List.pairwise_map.mp hdpair, ?_, hdmin, hdmax,
    List.pairwise_map.mp hhpair, ?_, hhmin, hhmax⟩
  · exact fun d => mem_fst_groupTotal _ _ df d
  · intro k
    rw [total_by_hour_map_key]
    exact mem_sortedKeys _ _

/-- Closed instance of C9 at a store with out-of-order hours. -/
theorem sparse_aggregates_sorted_and_bounded_witness :
    storeC9 ≠ [] ∧
    (((total_by_date storeC9).Pairwise fun p q => p.1 < q.1) ∧
    (∀ d, (d ∈ (total_by_date storeC9).map Prod.fst) ↔ d ∈ storeC9.map fun r => dateOf r.endTime) ∧
    (∃ hd, (total_by_date storeC9).head? = some hd ∧ ∀ p ∈ total_by_date storeC9, hd.1 ≤ p.1) ∧
    (∃ tl, (total_by_date storeC9).getLast? = some tl ∧ ∀ p ∈ total_by_date storeC9, p.1 ≤ tl.1) ∧
    ((total_by_hour storeC9).Pairwise fun r s => toLex (r.date, r.hour) < toLex (s.date, s.hour)) ∧
    (∀ k, (k ∈ (total_by_hour storeC9).map fun r => toLex (r.date, r.hour)) ↔ k ∈ storeC9.map hourKey) ∧
    (∃ hd, (total_by_hour storeC9).head? = some hd ∧
      ∀ s ∈ total_by_hour storeC9, toLex (hd.date, hd.hour) ≤ toLex (s.date, s.hour)) ∧
    (∃ tl, (total_by_hour storeC9).getLast? = some tl ∧
      ∀ s ∈ total_by_hour storeC9, toLex (s.date, s.hour) ≤ toLex (tl.date, tl.hour))) :=
  ⟨by decide, sparse_aggregates_sorted_and_bounded storeC9 (by decide)⟩

/-! ## `filter_by_month` (C10) and argument validation (C7) -/

/-- C10: `filter_by_month` is idempotent, returns an order-preserving
subsequence of the store in which every event's derived year and month
equal the arguments, and yields the empty store (rather than failing)
when no event matches. -/
theorem filter_by_month_idempotent_subseq (df : List Row) (y m : Nat) :
    filter_by_month (filter_by_month df y m) y m = filter_by_month df y m ∧
    (filter_by_month df y m).Sublist df ∧
    (∀ r ∈ filter_by_month df y m, yearOf r.endTime = y ∧ monthOf r.endTime = m) ∧
    ((∀ r ∈ df, ¬(yearOf r.endTime = y ∧ monthOf r.endTime = m)) →
      filter_by_month df y m = []) := by
  refine ⟨?_, List.filter_sublist df, ?_, ?_⟩
  · apply List.filter_eq_self.mpr
    intro r hr
    exact (List.mem_filter.mp hr).2
  · intro r hr
    have h2 := (List.mem_filter.mp hr).2
    simp only [Bool.and_eq_true, decide_eq_true_eq] at h2
    exact h2
  · intro hnone
    apply List.filter_eq_nil_iff.mpr
    intro r hr
    simp only [Bool.and_eq_true, decide_eq_true_eq]
    exact fun hc => hnone r hr hc

/-- Closed instance of C10 at a two-month store. -/
theorem filter_by_month_idempotent_subseq_witness :
    filter_by_month (filter_by_month storeC10 2024 1) 2024 1 = filter_by_month storeC10 2024 1 ∧
    (filter_by_month storeC10 2024 1).Sublist storeC10 ∧
    (∀ r ∈ filter_by_month storeC10 2024 1, yearOf r.endTime = 2024 ∧ monthOf r.endTime = 1) ∧
    ((∀ r ∈ storeC10, ¬(yearOf r.endTime = 2024 ∧ monthOf r.endTime = 1)) →
      filter_by_month storeC10 2024 1 = []) :=
  filter_by_month_idempotent_subseq storeC10 2024 1

/-- The derived `month` column always lies in 1..12 (bound on the civil
calendar computation). -/
theorem monthOf_bounds (t : Nat) : 1 ≤ monthOf t ∧ monthOf t ≤ 12 := by
  unfold monthOf civilOfDays dateOf
  dsimp only
  constructor
  · split <;> omega
  · split <;> omega

/-- C7 counterexample: `get_top_artists`/`get_top_tracks` with n = 0 and
`filter_by_month` with month 13 return ordinary (empty) results on a
non-empty store — no `InvalidArgumentError` (or any failure) occurs; no
such error type exists in the code. -/
theorem invalid_args_do_not_fail :
    storeC7 ≠ [] ∧
    get_top_artists storeC7 0 = [] ∧
    get_top_tracks storeC7 0 = [] ∧
    filter_by_month storeC7 2024 13 = [] := by decide

/-- C7 amended: the code validates neither argument. `top-n` with n = 0
returns the empty result (a negative n keeps all but the last |n| rows,
also without failing), and `filter_by_month` with a month outside 1–12
returns the empty store, since every derived month lies in 1..12. -/
theorem invalid_args_return_empty (df : List Row) (y : Nat) :
    get_top_artists df 0 = [] ∧
    get_top_tracks df 0 = [] ∧
    ∀ m : Nat, m < 1 ∨ 12 < m → filter_by_month df y m = [] := by
  refine ⟨?_, ?_, ?_⟩
  · rw [get_top_artists, headPd]
    simp
  · rw [get_top_tracks, headPd]
    simp
  · intro m hm
    apply List.filter_eq_nil_iff.mpr
    intro r hr
    simp only [Bool.and_eq_true, decide_eq_true_eq]
    intro hc
    have hb := monthOf_bounds r.endTime
    omega

/-- Closed instance of the amended C7 at month 13. -/
theorem invalid_args_return_empty_witness :
    (13 < 1 ∨ 12 < 13) ∧ filter_by_month storeC7 2024 13 = [] :=
  ⟨by decide, (invalid_args_return_empty storeC7 2024).2.2 13 (by decide)⟩

/-! ## Behaviour on the empty store (C6) -/

/-- C6 counterexample: on the empty store, `total_by_artist` and
`get_top_artists` return empty results and the weekday/weekend totals
return an empty table — they do not fail, with `EmptyDatasetError` (which
exists nowhere in the code) or otherwise. -/
theorem empty_store_operations_succeed :
    total_by_artist ([] : List Row) = [] ∧
    get_top_artists ([] : List Row) 5 = [] ∧
    (total_by_weekday_weekend ([] : List Row)).2 = [] := by decide

/-- C6 amended: only the two gap fillers (and the averages built on
them) fail on an empty frame — by reading the first cell of an empty
frame (an `IndexError` in pandas, modelled `none`), not by raising any
`EmptyDatasetError`; every other operation returns an empty result. -/
theorem empty_frame_behavior :
    get_date_tally ([] : List (Nat × Nat)) = none ∧
    get_hour_tally ([] : List HRow) = none ∧
    average_by_day_of_week ([] : List Row) = none ∧
    average_by_hour ([] : List Row) = none ∧
    total_by_date ([] : List Row) = [] ∧
    total_by_hour ([] : List Row) = [] ∧
    total_by_artist ([] : List Row) = [] ∧
    total_by_track ([] : List Row) = [] ∧
    (total_by_weekday_weekend ([] : List Row)).2 = [] ∧
    (∀ n : Int, get_top_artists ([] : List Row) n = []) ∧
    (∀ n : Int, get_top_tracks ([] : List Row) n = []) ∧
    (∀ y m : Nat, filter_by_month ([] : List Row) y m = []) := by
  refine ⟨rfl, rfl, rfl, rfl, rfl, rfl, rfl, rfl, rfl, ?_, ?_, fun y m => rfl⟩
  · intro n
    have h0 : sort_values_desc (fun p => p.2) (total_by_artist ([] : List Row)) = [] := rfl
    rw [get_top_artists, headPd, h0]
    split <;> simp
  · intro n
    have h0 : sort_values_desc (fun p => p.2) (total_by_track ([] : List Row)) = [] := rfl
    rw [get_top_tracks, headPd, h0]
    split <;> simp

/-! ## Frame effects of the engine (C8) -/

/-- The first component of a successful `get_hour_tally` is its input
frame with the `date_hour` column written in. -/
theorem get_hour_tally_fst (l : List HRow) (h : l ≠ []) :
    (get_hour_tally l).map Prod.fst
      = some (l.map fun r => { r with date_hour := some (r.date, r.hour) }) := by
  match l, h with
  | a :: t, _ => rfl

/-- C8 counterexample: `total_by_weekday_weekend` does not leave the
store it is given unchanged — it hands back a frame with a `weekend`
column added. -/
theorem total_by_weekday_weekend_mutates_store :
    (total_by_weekday_weekend storeC8).1 ≠ storeC8 := by decide

/-- C8 amended: the engine's mutations are limited to writing derived
helper columns into the frames it is handed: `total_by_weekday_weekend`
writes the `weekend` column into the store and `get_hour_tally` writes
the `date_hour` column into its input frame, in both cases preserving
the row count and every other field of every row; `filter_by_month`
returns a (new) subsequence of the store. -/
theorem mutation_limited_to_added_columns (df : List Row) (dfh : List HRow) (y m : Nat) :
    ((total_by_weekday_weekend df).1.map dropWeekendCol = df.map dropWeekendCol) ∧
    ((total_by_weekday_weekend df).1.length = df.length) ∧
    (∀ q, get_hour_tally dfh = some q →
      q.1.map dropDateHourCol = dfh.map dropDateHourCol ∧ q.1.length = dfh.length) ∧
    (filter_by_month df y m).Sublist df := by
  have hw : (total_by_weekday_weekend df).1
      = df.map fun r => { r with weekend := some (decide (4 < dayOfWeekOf r.endTime)) } := rfl
  refine ⟨?_, ?_, ?_, List.filter_sublist df⟩
  · rw [hw, List.map_map]
    rfl
  · rw [hw]
    exact List.length_map df _
  · intro q hq
    have hne : dfh ≠ [] := by
      intro hc
      subst hc
      exact Option.noConfusion hq
    have h1 : q.1 = dfh.map fun r => { r with date_hour := some (r.date, r.hour) } := by
      have h2 := get_hour_tally_fst dfh hne
      rw [hq] at h2
      exact Option.some.inj h2
    constructor
    · rw [h1, List.map_map]
      rfl
    · rw [h1]
      exact List.length_map dfh _

/-- Closed instance of the amended C8. -/
theorem mutation_limited_to_added_columns_witness :
    ((total_by_weekday_weekend storeC8).1.map dropWeekendCol = storeC8.map dropWeekendCol) ∧
    ((total_by_weekday_weekend storeC8).1.length = storeC8.length) ∧
    (∀ q, get_hour_tally (total_by_hour storeC8) = some q →
      q.1.map dropDateHourCol = (total_by_hour storeC8).map dropDateHourCol ∧
      q.1.length = (total_by_hour storeC8).length) ∧
    (filter_by_month storeC8 2024 1).Sublist storeC8 :=
  mutation_limited_to_added_columns storeC8 (total_by_hour storeC8) 2024 1

/-! ## The hour-granularity defects (C2, C3)

`get_hour_tally` truncates the hourly range at (last date, FIRST hour)
— line 86 of the source reuses `head()` where `tail()` was meant — and
fills it by row-index alignment.  The two theorems below evaluate the
embedded code at the specification's own example (events on 2024-01-01
at 14:xx and 16:xx only). -/

/-- C3 (code bug): for events only at 2024-01-01 14:00 and 16:00,
`get_hour_tally` produces exactly ONE hour bucket — (2024-01-01, 14) —
instead of the three buckets 14:00, 15:00 (zero-filled), 16:00 the
specification requires: the range end is computed from the first row's
hour, so the 16:00 event is dropped entirely. -/
theorem hour_tally_range_collapses :
    civilOfDays 19723 = (2024, 1, 1) ∧
    (storeC3.map fun r => (dateOf r.endTime, hourOf r.endTime)) = [(19723, 14), (19723, 16)] ∧
    (get_hour_tally (total_by_hour storeC3)).map (fun q => q.2)
      = some [{ date := 19723, hour := 14, msPlayed := 45000 }] := by decide

/-- C2 (code bug): `average_by_hour` inherits `get_hour_tally`'s
defects: on events at 2024-01-01 14:30 (60000 ms) and 16:30 (30000 ms)
it returns an average for hour 14 only — hour 15 contributes no
zero-filled bucket to any mean and the 16:30 event is dropped — instead
of averages for hours 14, 15 (zero) and 16. -/
theorem average_by_hour_drops_buckets :
    civilOfDays 19723 = (2024, 1, 1) ∧
    (storeC2.map fun r => (dateOf r.endTime, hourOf r.endTime)) = [(19723, 14), (19723, 16)] ∧
    average_by_hour storeC2 = some [(14, (60000 : ℚ))] := by
  refine ⟨by decide, by decide, ?_⟩
  have h1 : average_by_hour storeC2
      = some [(14, (((60000 : Nat) : ℚ) / ((1 : Nat) : ℚ)))] := rfl
  rw [h1]
  norm_num

end SpotifyDash
